import Mathlib

/-!
Shallow embedding of the gemara-mcp evidence pipeline.

The development models the Go packages `internal/evidence` (pipeline and
schema mapper) and `internal/evidence/parsers` (markdown, YAML/JSON and
Kubernetes manifest parsers).  Go strings are modelled as Lean `String`
(a list of characters); `float64` confidences are modelled as `ℚ`, all
confidence arithmetic in the source being exact on the constants involved.
The third-party `goccy/go-yaml` library is not part of the repository; it
is modelled as an abstract record of decode/encode functions (`YamlLib`)
so that every theorem states exactly which library behaviour it relies on.
Go map iteration order is unspecified by the Go language specification, so
the YAML parser additionally takes the enumeration order of the decoded
top-level map as an explicit parameter, constrained in theorems to be a
permutation of the decoded entries.
-/

/-- Whitespace predicate modelling Go `unicode.IsSpace` on the ASCII range
(space, tab, newline, carriage return, vertical tab, form feed), the only
characters relevant to the sources and keywords handled here. -/
def goIsSpace (c : Char) : Bool :=
  c == ' ' || c == '\t' || c == '\n' || c == '\r' || c == '\x0b' || c == '\x0c'

/-- Trim leading and trailing whitespace from a character list. -/
def trimChars (l : List Char) : List Char :=
  ((l.dropWhile goIsSpace).reverse.dropWhile goIsSpace).reverse

/-- Modelling Go `strings.TrimSpace`. -/
def goTrimSpace (s : String) : String :=
  ⟨trimChars s.data⟩

/-- Lower-case a character, restricted to ASCII as Go `strings.ToLower`
acts on the ASCII letters occurring in the rule table and format hints. -/
def lowerChar (c : Char) : Char :=
  if 'A' ≤ c ∧ c ≤ 'Z' then Char.ofNat (c.toNat + 32) else c

/-- Modelling Go `strings.ToLower` (ASCII range). -/
def goToLower (s : String) : String :=
  ⟨s.data.map lowerChar⟩

/-- Modelling Go `strings.EqualFold` (ASCII simple case folding). -/
def goEqualFold (a b : String) : Bool :=
  goToLower a == goToLower b

/-- Modelling Go `strings.HasPrefix`. -/
def goStartsWith (s pre : String) : Bool :=
  pre.data.isPrefixOf s.data

/-- Substring scan underlying Go `strings.Contains`: true when `sub`
occurs contiguously inside the second list. -/
def listHasSub (sub : List Char) : List Char → Bool
  | [] => sub.isEmpty
  | c :: rest => sub.isPrefixOf (c :: rest) || listHasSub sub rest

/-- Modelling Go `strings.Contains s sub`. -/
def goContains (s sub : String) : Bool :=
  listHasSub sub.data s.data

/-- Split a character list on a non-empty separator `s0 :: sRest`,
modelling the loop of Go `strings.Split`.  The `fuel` argument makes the
recursion structural so concrete splits evaluate in the kernel; every
call site passes the input length, which bounds the recursion depth
(each step consumes at least one input character), so the fuel-exhausted
branch is unreachable. -/
def splitSeqAux (s0 : Char) (sRest : List Char) : Nat → List Char → List Char → List (List Char)
  | _, acc, [] => [acc.reverse]
  | 0, acc, _ :: _ => [acc.reverse]
  | fuel + 1, acc, c :: rest =>
    if (s0 :: sRest).isPrefixOf (c :: rest) then
      acc.reverse :: splitSeqAux s0 sRest fuel [] (rest.drop sRest.length)
    else
      splitSeqAux s0 sRest fuel (c :: acc) rest

/-- Modelling Go `strings.Split s sep`.  For the empty separator Go
explodes the string into single runes (unused by the embedded code). -/
def goSplit (s sep : String) : List String :=
  match sep.data with
  | [] => s.data.map (fun c => ⟨[c]⟩)
  | c0 :: cRest => (splitSeqAux c0 cRest s.data.length [] s.data).map String.mk

/-- Modelling Go `strings.TrimLeft s cutset`. -/
def goTrimLeft (s cutset : String) : String :=
  ⟨s.data.dropWhile (fun c => cutset.data.contains c)⟩

/-- First line of a string: `strings.SplitN(s, "\n", 2)[0]` in the source. -/
def goFirstLine (s : String) : String :=
  ⟨s.data.takeWhile (fun c => c != '\n')⟩

/-- Escape one character as Go `%q` formatting does for the escapes
relevant here (quote, backslash, newline, tab, carriage return); other
printable characters are passed through unchanged. -/
def quoteChar (c : Char) : List Char :=
  if c == '"' then ['\\', '"']
  else if c == '\\' then ['\\', '\\']
  else if c == '\n' then ['\\', 'n']
  else if c == '\t' then ['\\', 't']
  else if c == '\r' then ['\\', 'r']
  else [c]

/-- Modelling Go `fmt` verb `%q` on printable ASCII strings. -/
def goQuote (s : String) : String :=
  ⟨'"' :: ((s.data.flatMap quoteChar) ++ ['"'])⟩

/-! ## Data model (`internal/evidence/evidence.go`) -/

/-- EvidenceSource describes the raw input to the evidence pipeline. -/
structure EvidenceSource where
  Content : String
  Format : String
  ID : String
deriving DecidableEq

/-- One extracted unit of evidence text with provenance. -/
structure EvidenceChunk where
  Text : String
  SourceID : String
  SectionPath : String
  Confidence : ℚ
deriving DecidableEq

/-- A proposed value for one field of the compliance schema. -/
structure SchemaCandidate where
  TargetField : String
  Value : String
  SourceRef : String
  Confidence : ℚ
deriving DecidableEq

/-! ## Schema mapper (`internal/evidence/mapper.go`) -/

/-- fieldRule maps a set of trigger keywords to a target schema field. -/
structure FieldRule where
  keywords : List String
  targetField : String

/-- The keyword-to-field mapping table used by the SchemaMapper.  Rules
are evaluated in order; the first match wins. -/
def schemaFieldRules : List FieldRule :=
  [⟨["identifier", "id:", "control id", "policy id"], "metadata.id"⟩,
   ⟨["title:", "name:", "policy name", "control name"], "metadata.title"⟩,
   ⟨["version:", "revision:"], "metadata.version"⟩,
   ⟨["objective", "goal", "purpose", "intent"], "controls[].objective"⟩,
   ⟨["control statement", "requirement", "must ", "shall ", "required to"], "controls[].statement"⟩,
   ⟨["assessment", "verify", "verification", "audit", "check"], "controls[].assessment"⟩,
   ⟨["implementation", "procedure", "how to", "steps to"], "controls[].implementation"⟩,
   ⟨["parameter", "setting", "configuration", "config value"], "controls[].parameters[]"⟩,
   ⟨["reference", "see also", "related", "maps to"], "metadata.references[]"⟩,
   ⟨["scope", "applies to", "applicability"], "metadata.scope"⟩,
   ⟨["description", "overview", "summary", "background"], "metadata.description"⟩]

/-- Collapse chunk text to a single line: split on newlines, trim each
line, drop empties, rejoin with single spaces. -/
def normalizeValue (text : String) : String :=
  String.intercalate " " (((goSplit text "\n").map goTrimSpace).filter (fun l => l != ""))

namespace SchemaMapper

/-- Loop of `SchemaMapper.mapChunk` over the remaining rules: the inner
`List.any` mirrors the Go inner loop over the keywords of one rule. -/
def mapChunkAux (chunk : EvidenceChunk) (lower : String) : List FieldRule → Option SchemaCandidate
  | [] => none
  | rule :: rest =>
    if rule.keywords.any (fun kw => goContains lower kw) then
      some { TargetField := rule.targetField,
             Value := normalizeValue chunk.Text,
             SourceRef := chunk.SourceID ++ " / " ++ chunk.SectionPath,
             Confidence := 0.75 * chunk.Confidence }
    else mapChunkAux chunk lower rest

/-- `SchemaMapper.mapChunk`: lower-case the chunk text, scan the rule
table in order, emit a candidate for the first matching rule. -/
def mapChunk (chunk : EvidenceChunk) : Option SchemaCandidate :=
  mapChunkAux chunk (goToLower chunk.Text) schemaFieldRules

/-- `SchemaMapper.Map`: append the candidate of every chunk that maps. -/
def Map (chunks : List EvidenceChunk) : List SchemaCandidate :=
  chunks.filterMap mapChunk

end SchemaMapper

/-! ## Model of the `goccy/go-yaml` dependency

The library is not part of the repository; parsers receive its behaviour
as an abstract record.  Decoded Go maps are represented as association
lists in an unspecified canonical order. -/

/-- Target struct of the Kubernetes parser's unmarshal (`kubeManifest`). -/
structure KubeManifest (V : Type) where
  apiVersion : String
  kind : String
  metadata : List (String × V)
  spec : Option (List (String × V))

/-- Abstract interface of the YAML library used by the parsers. -/
structure YamlLib (V : Type) where
  unmarshalMap : String → Except String (List (String × V))
  unmarshalManifest : String → Except String (KubeManifest V)
  marshal : V → Except String String
  sprintf : V → String

/-- Marshal a value, falling back to `fmt.Sprintf("%v", value)` when the
marshal fails, as both the YAML and Kubernetes parsers do. -/
def renderValue {V : Type} (L : YamlLib V) (v : V) : String :=
  match L.marshal v with
  | .ok rendered => rendered
  | .error _ => L.sprintf v

/-! ## Markdown parser (`internal/evidence/parsers/markdown.go`) -/

namespace MarkdownParser

def Name : String := "markdown"

/-- `MarkdownParser.CanHandle`: markdown format hint, or content whose
trimmed form starts with a heading or embeds one after a newline. -/
def CanHandle (source : EvidenceSource) : Bool :=
  if goEqualFold source.Format "markdown" || goEqualFold source.Format "md" then true
  else
    let content := goTrimSpace source.Content
    goStartsWith content "#" || goContains content "\n#"

/-- Loop state of `MarkdownParser.Parse`: accumulated chunks, current
heading, and the body lines collected since the last heading. -/
structure MdState where
  chunks : List EvidenceChunk
  currentHeading : String
  currentLines : List String

/-- The `flush` closure of `MarkdownParser.Parse`: emit one chunk for the
current section unless its trimmed body text is empty. -/
def flush (sourceID currentHeading : String) (currentLines : List String) : List EvidenceChunk :=
  let text := goTrimSpace (String.intercalate "\n" currentLines)
  if text = "" then []
  else
    let sectionPath := if currentHeading = "" then "preamble" else currentHeading
    [{ Text := text, SourceID := sourceID, SectionPath := sectionPath, Confidence := 0.85 }]

/-- One iteration of the line loop of `MarkdownParser.Parse`. -/
def step (sourceID : String) (st : MdState) (line : String) : MdState :=
  if goStartsWith line "#" then
    { chunks := st.chunks ++ flush sourceID st.currentHeading st.currentLines,
      currentHeading := goTrimSpace (goTrimLeft line "#"),
      currentLines := [] }
  else
    { st with currentLines := st.currentLines ++ [line] }

/-- `MarkdownParser.Parse`: split on newlines, fold the heading/body
loop, and flush the final section. -/
def Parse (source : EvidenceSource) : Except String (List EvidenceChunk) :=
  let lines := goSplit source.Content "\n"
  let st := lines.foldl (step source.ID) ⟨[], "", []⟩
  .ok (st.chunks ++ flush source.ID st.currentHeading st.currentLines)

end MarkdownParser

/-! ## YAML parser (`internal/evidence/parsers/yaml.go`) -/

namespace YAMLParser

def Name : String := "yaml"

/-- `YAMLParser.CanHandle`: yaml/yml/json format hint, a leading JSON
brace, or a top-level `key:` first line not claimed by the markdown or
dockerfile heuristics. -/
def CanHandle (source : EvidenceSource) : Bool :=
  if goToLower source.Format == "yaml" || goToLower source.Format == "yml" ||
      goToLower source.Format == "json" then true
  else
    let content := goTrimSpace source.Content
    if goStartsWith content "\x7b" then true
    else if content != "" && goContains (goFirstLine content) ":" &&
        !goStartsWith content "#" && !goStartsWith content "FROM" then true
    else false

/-- `YAMLParser.Parse`: unmarshal the document into a top-level map and
emit one chunk per key.  `enum` is the iteration order of the Go
`for key, value := range doc` loop, unspecified by Go semantics and
therefore passed explicitly; Go guarantees only that it enumerates the
decoded entries exactly once, i.e. that `enum doc` is a permutation of
`doc`. -/
def Parse {V : Type} (L : YamlLib V) (enum : List (String × V) → List (String × V))
    (source : EvidenceSource) : Except String (List EvidenceChunk) :=
  match L.unmarshalMap source.Content with
  | .error e => .error ("failed to unmarshal YAML/JSON: " ++ e)
  | .ok doc =>
    .ok ((enum doc).map (fun kv =>
      { Text := kv.1 ++ ": " ++ goTrimSpace (renderValue L kv.2),
        SourceID := source.ID,
        SectionPath := kv.1,
        Confidence := 0.80 }))

end YAMLParser

/-! ## Kubernetes parser (`internal/evidence/parsers/kubernetes.go`) -/

namespace KubernetesParser

def Name : String := "kubernetes"

/-- `KubernetesParser.CanHandle`: kubernetes/k8s format hint, or raw
content containing both of the characteristic manifest fields. -/
def CanHandle (source : EvidenceSource) : Bool :=
  if goToLower source.Format == "kubernetes" || goToLower source.Format == "k8s" then true
  else goContains source.Content "apiVersion:" && goContains source.Content "kind:"

/-- The security-relevant spec keys looked up by `extractSpecChunks`. -/
def securityKeys : List String :=
  ["securityContext", "containers", "initContainers",
   "volumes", "serviceAccountName", "hostNetwork",
   "hostPID", "hostIPC", "resources", "env", "image"]

/-- `KubernetesParser.extractSpecChunks`: one chunk per security key
present in the spec map. -/
def extractSpecChunks {V : Type} (L : YamlLib V) (spec : List (String × V))
    (sourceID resourceRef : String) : List EvidenceChunk :=
  securityKeys.filterMap (fun key =>
    match spec.lookup key with
    | none => none
    | some val =>
      some { Text := key ++ ":\n" ++ goTrimSpace (renderValue L val),
             SourceID := sourceID,
             SectionPath := resourceRef ++ " / spec." ++ key,
             Confidence := 0.88 })

/-- `KubernetesParser.parseDocument`: decode one manifest document and
emit its identity chunk plus its security-relevant spec chunks. -/
def parseDocument {V : Type} (L : YamlLib V) (content sourceID : String) (docIndex : Nat) :
    Except String (List EvidenceChunk) :=
  match L.unmarshalManifest content with
  | .error e => .error ("failed to unmarshal manifest: " ++ e)
  | .ok manifest =>
    let resourceRef :=
      match manifest.metadata.lookup "name" with
      | some nm => manifest.kind ++ "/" ++ L.sprintf nm ++ " (doc " ++ toString docIndex ++ ")"
      | none => manifest.kind ++ "/" ++ manifest.apiVersion
    let idChunks : List EvidenceChunk :=
      if manifest.kind != "" then
        [{ Text := "kind: " ++ manifest.kind ++ "\napiVersion: " ++ manifest.apiVersion,
           SourceID := sourceID,
           SectionPath := resourceRef ++ " / identity",
           Confidence := 0.90 }]
      else []
    let specChunks :=
      match manifest.spec with
      | none => []
      | some sp => extractSpecChunks L sp sourceID resourceRef
    .ok (idChunks ++ specChunks)

/-- `KubernetesParser.Parse`: split multi-document input on the
`"\n---"` separator, trim each document, skip empty documents and
documents that fail to decode, and concatenate the remaining chunks. -/
def Parse {V : Type} (L : YamlLib V) (source : EvidenceSource) :
    Except String (List EvidenceChunk) :=
  let docs := goSplit source.Content "\n---"
  .ok (docs.enum.flatMap (fun idoc =>
    let doc := goTrimSpace idoc.2
    if doc = "" then []
    else
      match parseDocument L doc source.ID idoc.1 with
      | .error _ => []
      | .ok docChunks => docChunks))

end KubernetesParser

/-! ## Pipeline (`internal/evidence/pipeline.go`) -/

/-- The `EvidenceParser` interface: one registered parser of the
pipeline, as a record of its three methods. -/
structure EvidenceParser where
  name : String
  canHandle : EvidenceSource → Bool
  parse : EvidenceSource → Except String (List EvidenceChunk)

/-- The two error shapes the pipeline can produce: the terminal
unsupported-format error of `selectParser`, and a parser failure wrapped
with the parser's name by `RunWithMeta`. -/
inductive PipelineError where
  | unsupportedFormat (sourceID formatHint : String)
  | parserFailed (parserName cause : String)
deriving DecidableEq

/-- Error message rendering, following the `fmt.Errorf` format strings
of the source. -/
def PipelineError.render : PipelineError → String
  | .unsupportedFormat sourceID formatHint =>
    "unsupported evidence format: no parser found for source " ++ goQuote sourceID ++
      " (format hint: " ++ goQuote formatHint ++ ")"
  | .parserFailed parserName cause =>
    "parser " ++ goQuote parserName ++ " failed: " ++ cause

/-- RunResult is the output of a successful pipeline run. -/
structure RunResult where
  Candidates : List SchemaCandidate
  ParserUsed : String
  ChunkCount : Nat
deriving DecidableEq

namespace Pipeline

/-- `Pipeline.selectParser`: the first registered parser whose
`CanHandle` accepts the source, else the unsupported-format error. -/
def selectParser (parsers : List EvidenceParser) (source : EvidenceSource) :
    Except PipelineError EvidenceParser :=
  match parsers.find? (fun p => p.canHandle source) with
  | some p => .ok p
  | none => .error (.unsupportedFormat source.ID source.Format)

/-- The parse-and-map tail of `Pipeline.RunWithMeta` once a parser has
been selected. -/
def runSelected (p : EvidenceParser) (source : EvidenceSource) :
    Except PipelineError RunResult :=
  match p.parse source with
  | .error e => .error (.parserFailed p.name e)
  | .ok chunks =>
    .ok { Candidates := SchemaMapper.Map chunks,
          ParserUsed := p.name,
          ChunkCount := chunks.length }

/-- `Pipeline.RunWithMeta`: select a parser, parse, map. -/
def RunWithMeta (parsers : List EvidenceParser) (source : EvidenceSource) :
    Except PipelineError RunResult :=
  match selectParser parsers source with
  | .error e => .error e
  | .ok p => runSelected p source

end Pipeline

/-- The markdown parser as a registered pipeline parser. -/
def markdownParser : EvidenceParser :=
  { name := MarkdownParser.Name,
    canHandle := MarkdownParser.CanHandle,
    parse := MarkdownParser.Parse }

/-- The YAML parser as a registered pipeline parser, for one library
behaviour `L` and one map-iteration order `enum`. -/
def yamlParser {V : Type} (L : YamlLib V) (enum : List (String × V) → List (String × V)) :
    EvidenceParser :=
  { name := YAMLParser.Name,
    canHandle := YAMLParser.CanHandle,
    parse := YAMLParser.Parse L enum }

/-- The Kubernetes parser as a registered pipeline parser. -/
def kubernetesParser {V : Type} (L : YamlLib V) : EvidenceParser :=
  { name := KubernetesParser.Name,
    canHandle := KubernetesParser.CanHandle,
    parse := KubernetesParser.Parse L }

/-! ## Specification-level reformulations

These definitions follow the specification's wording; theorems compare
them with the embedded source functions above. -/

/-- A rule matches when any of its keywords occurs in the lower-cased
chunk text. -/
def ruleMatchesText (lower : String) (rule : FieldRule) : Bool :=
  rule.keywords.any (fun kw => goContains lower kw)

/-- The candidate the mapper builds for a chunk from a matching rule. -/
def candidateFor (chunk : EvidenceChunk) (rule : FieldRule) : SchemaCandidate :=
  { TargetField := rule.targetField,
    Value := normalizeValue chunk.Text,
    SourceRef := chunk.SourceID ++ " / " ++ chunk.SectionPath,
    Confidence := 0.75 * chunk.Confidence }

/-- Specification view of markdown sectioning: split a line list into the
leading body lines before any heading and the list of (heading line,
body lines) sections, each body accumulating until the next heading. -/
def splitSections : List String → List String × List (String × List String)
  | [] => ([], [])
  | l :: ls =>
    let rest := splitSections ls
    if goStartsWith l "#" then ([], (l, rest.1) :: rest.2)
    else (l :: rest.1, rest.2)

/-- Heading text of a heading line: trimmed of leading `#` and
whitespace. -/
def headingText (line : String) : String :=
  goTrimSpace (goTrimLeft line "#")

/-- Specification view of `MarkdownParser.Parse`: one chunk for the
leading body (labeled `preamble`) plus one chunk per heading section,
each section emitted through the same flush rule as the source. -/
def mdParseSpec (source : EvidenceSource) : List EvidenceChunk :=
  let secs := splitSections (goSplit source.Content "\n")
  MarkdownParser.flush source.ID "" secs.1 ++
    secs.2.flatMap (fun sec => MarkdownParser.flush source.ID (headingText sec.1) sec.2)

/-- Two run results that agree except possibly in candidate order. -/
def RunResult.EquivUpToOrder (r1 r2 : RunResult) : Prop :=
  r1.Candidates.Perm r2.Candidates ∧ r1.ParserUsed = r2.ParserUsed ∧
    r1.ChunkCount = r2.ChunkCount

/-! ## Concrete fixtures for witnesses and counterexamples -/

/-- The structured-text example of the specification. -/
def mdConcreteSrc : EvidenceSource :=
  { Content := "# Section One\nContent of section one.\n\n## Subsection\nMore content here.\n\n# Section Two\nAnother section.",
    Format := "",
    ID := "test.md" }

/-- A document that is a single heading line with no body. -/
def loneHeadingSrc : EvidenceSource :=
  { Content := "# Lone Heading", Format := "", ID := "doc.md" }

/-- A two-key YAML document source. -/
def yamlPairSrc : EvidenceSource :=
  { Content := "title: a\nversion: b", Format := "yaml", ID := "x" }

/-- Concrete model of the YAML library behaviour on the fixtures above:
the two-key document decodes to its two entries, empty input decodes to
the nil map, everything else fails. -/
def yamlPairLib : YamlLib String :=
  { unmarshalMap := fun s =>
      if s = "title: a\nversion: b" then .ok [("title", "a"), ("version", "b")]
      else if s = "" then .ok []
      else .error "model: unknown input",
    unmarshalManifest := fun _ => .error "model: not a manifest",
    marshal := fun v => .ok v,
    sprintf := fun v => v }

/-- First document of the multi-document manifest fixture. -/
def deployDocOne : String :=
  "apiVersion: apps/v1\nkind: Deployment\nmetadata:\n  name: my-app"

/-- Second document of the multi-document manifest fixture. -/
def svcDocTwo : String :=
  "apiVersion: v1\nkind: Service"

/-- The two documents joined by a document separator. -/
def multiSrc : EvidenceSource :=
  { Content := deployDocOne ++ "\n---\n" ++ svcDocTwo,
    Format := "kubernetes",
    ID := "multi.yaml" }

/-- Concrete model of the YAML library on the manifest fixtures. -/
def k8sModelLib : YamlLib String :=
  { unmarshalMap := fun _ => .error "model: unused",
    unmarshalManifest := fun s =>
      if s = deployDocOne then .ok ⟨"apps/v1", "Deployment", [("name", "my-app")], none⟩
      else if s = svcDocTwo then .ok ⟨"v1", "Service", [], none⟩
      else .error "model: unknown document",
    marshal := fun v => .ok v,
    sprintf := fun v => v }

/-- Library model in which the first fixture document fails to decode. -/
def k8sFailLib : YamlLib String :=
  { unmarshalMap := fun _ => .error "model: unused",
    unmarshalManifest := fun s =>
      if s = svcDocTwo then .ok ⟨"v1", "Service", [], none⟩
      else .error "model: decode failure",
    marshal := fun v => .ok v,
    sprintf := fun v => v }

/-- Library model in which every document fails to decode. -/
def allFailLib : YamlLib String :=
  { unmarshalMap := fun _ => .error "model: failure",
    unmarshalManifest := fun _ => .error "model: failure",
    marshal := fun v => .ok v,
    sprintf := fun v => v }

/-- An empty-content source. -/
def emptySrc : EvidenceSource := { Content := "", Format := "", ID := "empty.md" }

/-- A source no parser of an empty pipeline can claim. -/
def pdfSrc : EvidenceSource := { Content := "anything", Format := "pdf", ID := "test.pdf" }

/-- A kubernetes-hinted multi-document source for the all-fail run. -/
def k8sHintedSrc : EvidenceSource :=
  { Content := "apiVersion: v1\nkind: Broken\n---\nalso: broken", Format := "k8s", ID := "bad.yaml" }

/-- A parser whose sniffing accepts every source (selection fixture). -/
def alwaysParserA : EvidenceParser :=
  { name := "first", canHandle := fun _ => true, parse := fun _ => .ok [] }

/-- A second all-accepting parser registered after the first. -/
def alwaysParserB : EvidenceParser :=
  { name := "second", canHandle := fun _ => true, parse := fun _ => .ok [] }

/-! ## Helper lemmas on the string model -/

/-- An element of an indexed enumeration is an element of the list. -/
theorem mem_of_mem_enumFrom2 {α : Type} {i : Nat} {x : α} :
    ∀ {l : List α} {n : Nat}, (i, x) ∈ List.enumFrom n l → x ∈ l := by
  intro l
  induction l with
  | nil => intro n h; cases h
  | cons a t ih =>
    intro n h
    rcases List.mem_cons.mp h with h | h
    · have hx : x = a := congrArg Prod.snd h
      rw [hx]
      exact List.mem_cons_self a t
    · exact List.mem_cons_of_mem a (ih h)

/-- The substring scan accepts any contiguous occurrence. -/
theorem listHasSub_append_mid (a sub b : List Char) :
    listHasSub sub (a ++ (sub ++ b)) = true := by
  induction a with
  | nil =>
    simp only [List.nil_append]
    cases h : sub ++ b with
    | nil =>
      have hsub : sub = [] := by
        cases sub with
        | nil => rfl
        | cons c cs => simp at h
      subst hsub
      simp [listHasSub]
    | cons c rest =>
      rw [← h]
      cases hs : sub ++ b with
      | nil => rw [hs] at h; cases h
      | cons d ds =>
        have hpre : sub.isPrefixOf (d :: ds) = true := by
          rw [← hs]
          exact List.isPrefixOf_iff_prefix.mpr ⟨b, rfl⟩
        rw [hs] at h
        simp [listHasSub, hpre]
  | cons c cs ih =>
    simp [listHasSub, ih]

/-- A string beginning with `a` passes the containment test for `a`. -/
theorem goContains_append_left (a b : String) : goContains (a ++ b) a = true := by
  have : (a ++ b).data = [] ++ (a.data ++ b.data) := rfl
  unfold goContains
  rw [this]
  exact listHasSub_append_mid [] a.data b.data

/-- Elements surviving `dropWhile` include every element the predicate
rejects. -/
theorem mem_dropWhile_of_not {α : Type} (p : α → Bool) {x : α} :
    ∀ {l : List α}, x ∈ l → p x = false → x ∈ l.dropWhile p := by
  intro l
  induction l with
  | nil => intro h; cases h
  | cons a t ih =>
    intro hmem hpx
    by_cases hpa : p a = true
    · rw [List.dropWhile_cons_of_pos hpa]
      rcases List.mem_cons.mp hmem with h | h
      · subst h; rw [hpa] at hpx; cases hpx
      · exact ih h hpx
    · rw [List.dropWhile_cons_of_neg hpa]
      exact hmem

/-- The head surviving `dropWhile` is rejected by the predicate. -/
theorem dropWhile_cons_head {α : Type} (p : α → Bool) {x : α} {xs : List α} :
    ∀ {l : List α}, l.dropWhile p = x :: xs → p x = false := by
  intro l
  induction l with
  | nil =>
    intro h
    simp only [List.dropWhile_nil] at h
    cases h
  | cons a t ih =>
    intro h
    by_cases hpa : p a = true
    · rw [List.dropWhile_cons_of_pos hpa] at h
      exact ih h
    · rw [List.dropWhile_cons_of_neg hpa] at h
      injection h with h1 h2
      subst h1
      simp only [Bool.not_eq_true] at hpa
      exact hpa

/-- Trimming keeps a list holding any non-whitespace character
non-empty. -/
theorem trimChars_ne_nil_of_mem {c : Char} {l : List Char}
    (hmem : c ∈ l) (hc : goIsSpace c = false) : trimChars l ≠ [] := by
  intro hnil
  unfold trimChars at hnil
  have h1 : (l.dropWhile goIsSpace).reverse.dropWhile goIsSpace = [] := by
    have := congrArg List.reverse hnil
    simpa using this
  have h2 : ∀ x ∈ (l.dropWhile goIsSpace).reverse, goIsSpace x := by
    exact List.dropWhile_eq_nil_iff.mp h1
  have h3 : c ∈ l.dropWhile goIsSpace := mem_dropWhile_of_not goIsSpace hmem hc
  have h4 : goIsSpace c = true := h2 c (List.mem_reverse.mpr h3)
  rw [h4] at hc; cases hc

/-- A non-empty trim result holds at least one non-whitespace
character. -/
theorem exists_nonspace_of_trimChars_ne_nil {l : List Char}
    (h : trimChars l ≠ []) : ∃ c ∈ trimChars l, goIsSpace c = false := by
  unfold trimChars at h ⊢
  cases hd : (l.dropWhile goIsSpace).reverse.dropWhile goIsSpace with
  | nil => rw [hd] at h; simp at h
  | cons x xs =>
    refine ⟨x, ?_, dropWhile_cons_head goIsSpace hd⟩
    exact List.mem_reverse.mpr (List.mem_cons_self x xs)

/-- Trimming an already trimmed non-empty string stays non-empty. -/
theorem goTrimSpace_trim_ne {s : String} (h : goTrimSpace s ≠ "") :
    goTrimSpace (goTrimSpace s) ≠ "" := by
  have hdata : trimChars s.data ≠ [] := by
    intro hnil
    apply h
    show (⟨trimChars s.data⟩ : String) = ⟨[]⟩
    rw [hnil]
  obtain ⟨c, hmem, hc⟩ := exists_nonspace_of_trimChars_ne_nil hdata
  intro hnil
  have : trimChars (goTrimSpace s).data ≠ [] := trimChars_ne_nil_of_mem hmem hc
  apply this
  have := congrArg String.data hnil
  simpa [goTrimSpace] using this

/-- A string holding any non-whitespace character trims to a non-empty
string. -/
theorem goTrimSpace_ne_of_mem {c : Char} {s : String}
    (hmem : c ∈ s.data) (hc : goIsSpace c = false) : goTrimSpace s ≠ "" := by
  intro hnil
  have := congrArg String.data hnil
  simp only [goTrimSpace] at this
  exact trimChars_ne_nil_of_mem hmem hc this

/-! ## Helper lemmas on the mapper -/

/-- The rule loop of `mapChunk` computes the first-match search over the
rule table. -/
theorem mapChunkAux_eq_find (chunk : EvidenceChunk) (lower : String) :
    ∀ rules : List FieldRule,
      SchemaMapper.mapChunkAux chunk lower rules =
        (rules.find? (ruleMatchesText lower)).map (candidateFor chunk) := by
  intro rules
  induction rules with
  | nil => rfl
  | cons rule rest ih =>
    by_cases hm : ruleMatchesText lower rule = true
    · rw [List.find?_cons_of_pos _ hm]
      simp only [SchemaMapper.mapChunkAux]
      rw [show (rule.keywords.any fun kw => goContains lower kw) = true from hm]
      rfl
    · have hm2 : ruleMatchesText lower rule = false := by
        simp only [Bool.not_eq_true] at hm; exact hm
      rw [List.find?_cons_of_neg _ (by simp [hm2])]
      simp only [SchemaMapper.mapChunkAux]
      rw [show (rule.keywords.any fun kw => goContains lower kw) = false from hm2]
      simpa using ih

/-- A produced candidate carries exactly the composed confidence. -/
theorem mapChunk_confidence {chunk : EvidenceChunk} {cand : SchemaCandidate}
    (h : SchemaMapper.mapChunk chunk = some cand) :
    cand.Confidence = 0.75 * chunk.Confidence := by
  rw [SchemaMapper.mapChunk, mapChunkAux_eq_find] at h
  obtain ⟨rule, -, hcand⟩ := Option.map_eq_some'.mp h
  rw [← hcand]
  rfl

/-- Candidates built from chunks with confidences in the unit interval
stay in the unit interval. -/
theorem map_candidates_bounds (chunks : List EvidenceChunk)
    (h : ∀ c ∈ chunks, 0 ≤ c.Confidence ∧ c.Confidence ≤ 1) :
    ∀ cand ∈ SchemaMapper.Map chunks, 0 ≤ cand.Confidence ∧ cand.Confidence ≤ 1 := by
  intro cand hmem
  obtain ⟨c, hc, hmap⟩ := List.mem_filterMap.mp hmem
  obtain ⟨h0, h1⟩ := h c hc
  have hconf := mapChunk_confidence hmap
  constructor
  · rw [hconf]; positivity
  · rw [hconf]
    nlinarith

/-! ## Helper lemmas on the markdown parser -/

/-- Generalized loop invariant: folding the markdown line loop from any
state and flushing the final section equals the already accumulated
chunks followed by the specification-level sectioning of the remaining
lines, the pending body lines prepended to the first section. -/
theorem md_fold_spec (sourceID : String) :
    ∀ (lines : List String) (st : MarkdownParser.MdState),
      (let fin := lines.foldl (MarkdownParser.step sourceID) st
       fin.chunks ++ MarkdownParser.flush sourceID fin.currentHeading fin.currentLines) =
      st.chunks ++
        (MarkdownParser.flush sourceID st.currentHeading
            (st.currentLines ++ (splitSections lines).1) ++
          (splitSections lines).2.flatMap
            (fun sec => MarkdownParser.flush sourceID (headingText sec.1) sec.2)) := by
  intro lines
  induction lines with
  | nil =>
    intro st
    simp [splitSections]
  | cons l ls ih =>
    intro st
    by_cases hl : goStartsWith l "#" = true
    · have hstep : MarkdownParser.step sourceID st l =
          { chunks := st.chunks ++ MarkdownParser.flush sourceID st.currentHeading st.currentLines,
            currentHeading := goTrimSpace (goTrimLeft l "#"),
            currentLines := [] } := by
        simp [MarkdownParser.step, hl]
      have hsec : splitSections (l :: ls) =
          ([], (l, (splitSections ls).1) :: (splitSections ls).2) := by
        simp [splitSections, hl]
      simp only [List.foldl_cons, hstep, hsec]
      rw [ih]
      simp [headingText, List.append_assoc]
    · have hl2 : goStartsWith l "#" = false := by
        simp only [Bool.not_eq_true] at hl; exact hl
      have hstep : MarkdownParser.step sourceID st l =
          { st with currentLines := st.currentLines ++ [l] } := by
        simp [MarkdownParser.step, hl2]
      have hsec : splitSections (l :: ls) =
          (l :: (splitSections ls).1, (splitSections ls).2) := by
        simp [splitSections, hl2]
      simp only [List.foldl_cons, hstep, hsec]
      rw [ih]
      simp [List.append_assoc]

/-- `MarkdownParser.Parse` computes its specification-level sectioning. -/
theorem md_parse_eq_spec (source : EvidenceSource) :
    MarkdownParser.Parse source = .ok (mdParseSpec source) := by
  unfold MarkdownParser.Parse mdParseSpec
  have := md_fold_spec source.ID (goSplit source.Content "\n") ⟨[], "", []⟩
  simpa using this

/-- Every chunk a flush emits has non-empty trimmed text and confidence
0.85. -/
theorem flush_mem {sourceID heading : String} {lns : List String} {c : EvidenceChunk}
    (h : c ∈ MarkdownParser.flush sourceID heading lns) :
    goTrimSpace c.Text ≠ "" ∧ c.Confidence = 0.85 := by
  unfold MarkdownParser.flush at h
  by_cases ht : goTrimSpace (String.intercalate "\n" lns) = ""
  · simp [ht] at h
  · rw [if_neg ht] at h
    rcases List.mem_cons.mp h with h | h
    · subst h
      exact ⟨goTrimSpace_trim_ne ht, rfl⟩
    · cases h

/-! ## Helper lemmas on the pipeline -/

/-- A first-match search returns the element at the first index whose
predicate holds. -/
theorem find_first_of_get {α : Type} (p : α → Bool) :
    ∀ (l : List α) (i : Nat) (hi : i < l.length),
      p (l.get ⟨i, hi⟩) = true →
      (∀ j (hj : j < l.length), j < i → p (l.get ⟨j, hj⟩) = false) →
      l.find? p = some (l.get ⟨i, hi⟩) := by
  intro l
  induction l with
  | nil => intro i hi; cases hi
  | cons a t ih =>
    intro i hi hp hbefore
    cases i with
    | zero =>
      have hget0 : (a :: t).get ⟨0, hi⟩ = a := rfl
      rw [hget0] at hp ⊢
      exact List.find?_cons_of_pos _ hp
    | succ k =>
      have ha : p a = false := by
        have := hbefore 0 (Nat.succ_le_succ (Nat.zero_le t.length)) (Nat.succ_pos k)
        simpa using this
      rw [List.find?_cons_of_neg _ (by simp [ha])]
      have hk : k < t.length := Nat.lt_of_succ_lt_succ hi
      have hget : (a :: t).get ⟨k + 1, hi⟩ = t.get ⟨k, hk⟩ := rfl
      rw [hget]
      refine ih k hk (by rw [← hget]; exact hp) ?_
      intro j hj hjk
      have := hbefore (j + 1) (Nat.succ_lt_succ hj) (Nat.succ_lt_succ hjk)
      simpa using this

/-- A successful run reports the selected parser's name. -/
theorem runSelected_parserUsed {p : EvidenceParser} {src : EvidenceSource} {r : RunResult}
    (h : Pipeline.runSelected p src = .ok r) : r.ParserUsed = p.name := by
  unfold Pipeline.runSelected at h
  cases hp : p.parse src with
  | error e => rw [hp] at h; cases h
  | ok chunks =>
    rw [hp] at h
    cases h
    rfl

/-- The parse-and-map tail never yields the unsupported-format error. -/
theorem runSelected_ne_unsupported (p : EvidenceParser) (src : EvidenceSource)
    (sid f : String) :
    Pipeline.runSelected p src ≠ .error (.unsupportedFormat sid f) := by
  unfold Pipeline.runSelected
  cases hp : p.parse src with
  | error e => intro h; cases h
  | ok chunks => intro h; cases h

/-! ## Claim theorems -/

/-- C2 counterexample: a chunk whose text matches a keyword but whose
confidence is 0 produces a candidate with confidence 0.75 * 0 = 0, so
the claimed strict bound 0 < candidate.confidence fails as stated. -/
theorem C2_counterexample :
    SchemaMapper.mapChunk { Text := "objective", SourceID := "doc", SectionPath := "s", Confidence := 0 } =
      some { TargetField := "controls[].objective", Value := "objective",
             SourceRef := "doc / s", Confidence := 0.75 * 0 } ∧
    ¬ (0 : ℚ) < 0.75 * 0 := by
  refine ⟨rfl, ?_⟩
  norm_num

/-- C2 (amended): whenever the mapper produces a candidate, its
confidence is exactly 0.75 times the chunk's confidence; when the
chunk's confidence is additionally positive, the candidate confidence is
strictly positive and bounded by the chunk's confidence. -/
theorem C2_confidence_composition (chunk : EvidenceChunk) (cand : SchemaCandidate)
    (h : SchemaMapper.mapChunk chunk = some cand) :
    cand.Confidence = 0.75 * chunk.Confidence ∧
      (0 < chunk.Confidence → 0 < cand.Confidence ∧ cand.Confidence ≤ chunk.Confidence) := by
  have hconf := mapChunk_confidence h
  refine ⟨hconf, fun hpos => ⟨?_, ?_⟩⟩
  · rw [hconf]
    have h34 : (0.75 : ℚ) = 3 / 4 := by norm_num
    rw [h34]
    linarith
  · rw [hconf]
    have h34 : (0.75 : ℚ) = 3 / 4 := by norm_num
    rw [h34]
    linarith

/-- C2 witness: the mapper applied to a matching chunk of confidence 1,
with the theorem's conclusions instantiated there. -/
theorem C2_witness :
    SchemaMapper.mapChunk { Text := "objective", SourceID := "doc", SectionPath := "s", Confidence := 1 } =
      some { TargetField := "controls[].objective", Value := "objective",
             SourceRef := "doc / s", Confidence := 0.75 * 1 } ∧
    (0.75 * 1 : ℚ) = 0.75 * 1 ∧ 0 < (0.75 * 1 : ℚ) ∧ (0.75 * 1 : ℚ) ≤ 1 := by
  have h : SchemaMapper.mapChunk
      { Text := "objective", SourceID := "doc", SectionPath := "s", Confidence := 1 } =
      some { TargetField := "controls[].objective", Value := "objective",
             SourceRef := "doc / s", Confidence := 0.75 * 1 } := rfl
  have h2 := C2_confidence_composition
    { Text := "objective", SourceID := "doc", SectionPath := "s", Confidence := 1 }
    { TargetField := "controls[].objective", Value := "objective",
      SourceRef := "doc / s", Confidence := 0.75 * 1 } h
  exact ⟨h, h2.1, (h2.2 (by norm_num)).1, (h2.2 (by norm_num)).2⟩

/-- C3: the mapper equals a first-match search over the rule table (so
the first rule with a keyword occurring in the lower-cased text yields
the single candidate, carrying that rule's target field), a chunk none
of whose rule keywords occur yields no candidate, and mapping never
yields more candidates than chunks. -/
theorem C3_first_match_single_candidate :
    (∀ chunk : EvidenceChunk,
      SchemaMapper.mapChunk chunk =
        (schemaFieldRules.find? (ruleMatchesText (goToLower chunk.Text))).map (candidateFor chunk) ∧
      ((∀ rule ∈ schemaFieldRules, ∀ kw ∈ rule.keywords,
          goContains (goToLower chunk.Text) kw = false) →
        SchemaMapper.mapChunk chunk = none)) ∧
    (∀ chunks : List EvidenceChunk, (SchemaMapper.Map chunks).length ≤ chunks.length) := by
  constructor
  · intro chunk
    have heq := mapChunkAux_eq_find chunk (goToLower chunk.Text) schemaFieldRules
    refine ⟨heq, fun hmiss => ?_⟩
    have hnone : schemaFieldRules.find? (ruleMatchesText (goToLower chunk.Text)) = none := by
      rw [List.find?_eq_none]
      intro rule hr hany
      obtain ⟨kw, hkw, hc⟩ := List.any_eq_true.mp hany
      rw [hmiss rule hr kw hkw] at hc
      cases hc
    rw [SchemaMapper.mapChunk, heq, hnone]
    rfl
  · intro chunks
    exact List.length_filterMap_le _ _

/-- C3 witness: a chunk with no keyword occurrence maps to no candidate,
through the theorem's lexical-miss direction. -/
theorem C3_witness :
    SchemaMapper.mapChunk { Text := "zzz", SourceID := "doc", SectionPath := "s", Confidence := 1 } = none := by
  exact (C3_first_match_single_candidate.1
    { Text := "zzz", SourceID := "doc", SectionPath := "s", Confidence := 1 }).2 (by decide)

/-- C4: when index i holds the first registered parser accepting the
source, selection returns exactly that parser, the run is the
parse-and-map of that parser, and a successful run reports that
parser's name as ParserUsed. -/
theorem C4_first_parser_selected (ps : List EvidenceParser) (src : EvidenceSource)
    (i : Nat) (hi : i < ps.length)
    (hcan : (ps.get ⟨i, hi⟩).canHandle src = true)
    (hbefore : ∀ j (hj : j < ps.length), j < i → (ps.get ⟨j, hj⟩).canHandle src = false) :
    Pipeline.selectParser ps src = .ok (ps.get ⟨i, hi⟩) ∧
    Pipeline.RunWithMeta ps src = Pipeline.runSelected (ps.get ⟨i, hi⟩) src ∧
    ∀ r : RunResult, Pipeline.RunWithMeta ps src = .ok r →
      r.ParserUsed = (ps.get ⟨i, hi⟩).name := by
  have hfind : ps.find? (fun p => p.canHandle src) = some (ps.get ⟨i, hi⟩) :=
    find_first_of_get _ ps i hi hcan hbefore
  have hsel : Pipeline.selectParser ps src = .ok (ps.get ⟨i, hi⟩) := by
    unfold Pipeline.selectParser
    rw [hfind]
  have hrun : Pipeline.RunWithMeta ps src = Pipeline.runSelected (ps.get ⟨i, hi⟩) src := by
    unfold Pipeline.RunWithMeta
    rw [hsel]
  refine ⟨hsel, hrun, ?_⟩
  intro r hr
  rw [hrun] at hr
  exact runSelected_parserUsed hr

/-- C4 witness: among two all-accepting parsers the first registered one
is selected and drives the run. -/
theorem C4_witness :
    Pipeline.selectParser [alwaysParserA, alwaysParserB] pdfSrc = .ok alwaysParserA ∧
    Pipeline.RunWithMeta [alwaysParserA, alwaysParserB] pdfSrc =
      Pipeline.runSelected alwaysParserA pdfSrc := by
  have h := C4_first_parser_selected [alwaysParserA, alwaysParserB] pdfSrc 0 (by decide)
    rfl (fun j hj hj0 => absurd hj0 (Nat.not_lt_zero j))
  exact ⟨h.1, h.2.1⟩

/-- C5: the run fails with the unsupported-format error naming the
source's ID and format hint exactly when no registered parser accepts
the source; any unsupported-format error carries the source's ID and
hint, and its rendering starts with the literal diagnostic and quotes
both identifiers. -/
theorem C5_unsupported_format_error (ps : List EvidenceParser) (src : EvidenceSource) :
    (Pipeline.RunWithMeta ps src = .error (.unsupportedFormat src.ID src.Format) ↔
      ∀ p ∈ ps, p.canHandle src = false) ∧
    (∀ sid f : String,
      Pipeline.RunWithMeta ps src = .error (.unsupportedFormat sid f) →
        sid = src.ID ∧ f = src.Format) ∧
    goContains ((PipelineError.unsupportedFormat src.ID src.Format).render)
        "unsupported evidence format" = true ∧
    (PipelineError.unsupportedFormat src.ID src.Format).render =
      "unsupported evidence format: no parser found for source " ++ goQuote src.ID ++
        " (format hint: " ++ goQuote src.Format ++ ")" := by
  refine ⟨⟨?_, ?_⟩, ?_, ?_, rfl⟩
  · intro h
    unfold Pipeline.RunWithMeta at h
    cases hsel : Pipeline.selectParser ps src with
    | error e =>
      unfold Pipeline.selectParser at hsel
      cases hfind : ps.find? (fun p => p.canHandle src) with
      | some p => rw [hfind] at hsel; cases hsel
      | none =>
        intro p hp
        have := List.find?_eq_none.mp hfind p hp
        simpa using this
    | ok p =>
      rw [hsel] at h
      exact absurd h (runSelected_ne_unsupported p src _ _)
  · intro hall
    have hfind : ps.find? (fun p => p.canHandle src) = none :=
      List.find?_eq_none.mpr (fun p hp => by simp [hall p hp])
    unfold Pipeline.RunWithMeta Pipeline.selectParser
    rw [hfind]
  · intro sid f h
    unfold Pipeline.RunWithMeta Pipeline.selectParser at h
    cases hfind : ps.find? (fun p => p.canHandle src) with
    | some p =>
      rw [hfind] at h
      exact absurd h (runSelected_ne_unsupported p src sid f)
    | none =>
      rw [hfind] at h
      injection h with h2
      injection h2 with ha hb
      exact ⟨ha.symm, hb.symm⟩
  · have hlit : ("unsupported evidence format: no parser found for source " : String) =
        "unsupported evidence format" ++ ": no parser found for source " := rfl
    have h1 : (PipelineError.unsupportedFormat src.ID src.Format).render =
        "unsupported evidence format" ++
          (": no parser found for source " ++ (goQuote src.ID ++
            (" (format hint: " ++ (goQuote src.Format ++ ")")))) := by
      show ("unsupported evidence format: no parser found for source " ++ goQuote src.ID ++
          " (format hint: " ++ goQuote src.Format ++ ")") = _
      rw [hlit]
      rw [String.append_assoc, String.append_assoc, String.append_assoc, String.append_assoc]
    rw [h1]
    exact goContains_append_left _ _

/-- C5 witness: an empty pipeline fails on a pdf-hinted source with the
unsupported-format error naming its ID and hint. -/
theorem C5_witness :
    Pipeline.RunWithMeta [] pdfSrc = .error (.unsupportedFormat "test.pdf" "pdf") := by
  exact (C5_unsupported_format_error [] pdfSrc).1.mpr (fun p hp => absurd hp (List.not_mem_nil p))

/-- C6: on empty content the markdown and kubernetes parsers return an
empty chunk sequence and no error outright, and so does the YAML parser
provided the YAML library decodes empty input to the empty document (the
behaviour of the vendored library) and the map enumeration is a
permutation. -/
theorem C6_empty_content {V : Type} (L : YamlLib V)
    (enum : List (String × V) → List (String × V)) (src : EvidenceSource)
    (hempty : src.Content = "") :
    MarkdownParser.Parse src = .ok [] ∧
    KubernetesParser.Parse L src = .ok [] ∧
    (L.unmarshalMap "" = .ok [] → (∀ l, (enum l).Perm l) →
      YAMLParser.Parse L enum src = .ok []) := by
  obtain ⟨c, fm, sid⟩ := src
  have hc : c = "" := hempty
  subst hc
  refine ⟨rfl, rfl, ?_⟩
  intro hum hperm
  have henum : enum [] = [] := (hperm []).eq_nil
  unfold YAMLParser.Parse
  simp only [show ({ Content := "", Format := fm, ID := sid } : EvidenceSource).Content = ""
    from rfl, hum, henum, List.map_nil]

/-- C6 witness: all three parsers on the empty source, with the library
model decoding empty input to the empty document. -/
theorem C6_witness :
    MarkdownParser.Parse emptySrc = .ok [] ∧
    KubernetesParser.Parse yamlPairLib emptySrc = .ok [] ∧
    YAMLParser.Parse yamlPairLib id emptySrc = .ok [] := by
  have h := C6_empty_content yamlPairLib id emptySrc rfl
  exact ⟨h.1, h.2.1, h.2.2 rfl (fun l => List.Perm.refl l)⟩

/-- C10: the kubernetes parser succeeds on every input and every library
behaviour; when every non-empty document of the input fails to decode it
returns the empty chunk sequence; and whenever the pipeline selects the
kubernetes parser the run succeeds, so no wrapped parse failure is ever
reported for it. -/
theorem C10_kubernetes_parse_total {V : Type} (L : YamlLib V) (src : EvidenceSource) :
    (∃ chunks, KubernetesParser.Parse L src = .ok chunks) ∧
    ((∀ d ∈ goSplit src.Content "\n---", goTrimSpace d ≠ "" →
        ∃ e, L.unmarshalManifest (goTrimSpace d) = .error e) →
      KubernetesParser.Parse L src = .ok []) ∧
    (∀ ps : List EvidenceParser,
      Pipeline.selectParser ps src = .ok (kubernetesParser L) →
      ∃ r, Pipeline.RunWithMeta ps src = .ok r) := by
  refine ⟨⟨_, rfl⟩, ?_, ?_⟩
  · intro hfail
    have hflat : (goSplit src.Content "\n---").enum.flatMap
        (fun idoc =>
          if goTrimSpace idoc.2 = "" then []
          else
            match KubernetesParser.parseDocument L (goTrimSpace idoc.2) src.ID idoc.1 with
            | .error _ => []
            | .ok docChunks => docChunks) = [] := by
      rw [List.flatMap_eq_nil_iff]
      intro x hx
      by_cases ht : goTrimSpace x.2 = ""
      · simp [ht]
      · obtain ⟨e, he⟩ := hfail x.2 (mem_of_mem_enumFrom2 hx) ht
        have hpd : KubernetesParser.parseDocument L (goTrimSpace x.2) src.ID x.1 =
            .error ("failed to unmarshal manifest: " ++ e) := by
          unfold KubernetesParser.parseDocument
          rw [he]
        rw [if_neg ht, hpd]
    calc KubernetesParser.Parse L src
        = Except.ok ((goSplit src.Content "\n---").enum.flatMap
            (fun idoc =>
              if goTrimSpace idoc.2 = "" then []
              else
                match KubernetesParser.parseDocument L (goTrimSpace idoc.2) src.ID idoc.1 with
                | .error _ => []
                | .ok docChunks => docChunks)) := rfl
      _ = Except.ok [] := by rw [hflat]
  · intro ps hsel
    have hrun : Pipeline.RunWithMeta ps src = Pipeline.runSelected (kubernetesParser L) src := by
      unfold Pipeline.RunWithMeta
      rw [hsel]
    rw [hrun]
    exact ⟨_, rfl⟩

/-- C10 witness: every document of a two-document source fails to decode
under the all-failing library model, the parse still succeeds with no
chunks, and the pipeline run over the kubernetes parser succeeds. -/
theorem C10_witness :
    KubernetesParser.Parse allFailLib k8sHintedSrc = .ok [] ∧
    (∃ r, Pipeline.RunWithMeta [kubernetesParser allFailLib] k8sHintedSrc = .ok r) := by
  have h := C10_kubernetes_parse_total allFailLib k8sHintedSrc
  refine ⟨h.2.1 ?_, h.2.2 [kubernetesParser allFailLib] rfl⟩
  intro d hd htrim
  exact ⟨"model: failure", rfl⟩

/-- C8 counterexample: a document consisting of a single heading line
parses to zero chunks, so a heading line does not always start a chunk
as the claim states. -/
theorem C8_counterexample :
    MarkdownParser.Parse loneHeadingSrc = .ok [] ∧
    goStartsWith "# Lone Heading" "#" = true := ⟨rfl, rfl⟩

/-- C8 (amended): the concrete structured-text example parses into
exactly the three expected chunks with confidence 0.85, and in general
the parse equals the specification-level sectioning: a chunk per heading
section whose trimmed body is non-empty (section path the heading text,
or `preamble` when that text is empty) plus one `preamble` chunk for
non-empty leading body, headings with empty bodies producing no
chunk. -/
theorem C8_structured_text_sections :
    MarkdownParser.Parse mdConcreteSrc = .ok
      [{ Text := "Content of section one.", SourceID := "test.md",
         SectionPath := "Section One", Confidence := 0.85 },
       { Text := "More content here.", SourceID := "test.md",
         SectionPath := "Subsection", Confidence := 0.85 },
       { Text := "Another section.", SourceID := "test.md",
         SectionPath := "Section Two", Confidence := 0.85 }] ∧
    ∀ src : EvidenceSource, MarkdownParser.Parse src = .ok (mdParseSpec src) :=
  ⟨rfl, md_parse_eq_spec⟩

/-- Chunk invariants for the markdown parser. -/
theorem md_chunk_inv {src : EvidenceSource} {chunks : List EvidenceChunk}
    (h : MarkdownParser.Parse src = .ok chunks) :
    ∀ c ∈ chunks, goTrimSpace c.Text ≠ "" ∧ 0 ≤ c.Confidence ∧ c.Confidence ≤ 1 := by
  have hspec := md_parse_eq_spec src
  rw [h] at hspec
  injection hspec with hspec
  subst hspec
  intro c hc
  simp only [mdParseSpec] at hc
  rcases List.mem_append.mp hc with hc | hc
  · obtain ⟨hne, hconf⟩ := flush_mem hc
    refine ⟨hne, ?_, ?_⟩ <;> rw [hconf] <;> norm_num
  · obtain ⟨sec, hsec, hcm⟩ := List.mem_flatMap.mp hc
    obtain ⟨hne, hconf⟩ := flush_mem hcm
    refine ⟨hne, ?_, ?_⟩ <;> rw [hconf] <;> norm_num

/-- Chunk invariants for the YAML parser, any library behaviour and any
map enumeration. -/
theorem yaml_chunk_inv {V : Type} {L : YamlLib V}
    {enum : List (String × V) → List (String × V)} {src : EvidenceSource}
    {chunks : List EvidenceChunk}
    (h : YAMLParser.Parse L enum src = .ok chunks) :
    ∀ c ∈ chunks, goTrimSpace c.Text ≠ "" ∧ 0 ≤ c.Confidence ∧ c.Confidence ≤ 1 := by
  unfold YAMLParser.Parse at h
  cases hum : L.unmarshalMap src.Content with
  | error e => rw [hum] at h; cases h
  | ok doc =>
    rw [hum] at h
    injection h with h2
    intro c hc
    rw [← h2] at hc
    obtain ⟨kv, hkv, hceq⟩ := List.mem_map.mp hc
    refine ⟨?_, ?_, ?_⟩
    · rw [← hceq]
      refine goTrimSpace_ne_of_mem (c := ':') ?_ (by decide)
      have hdata : (kv.1 ++ ": " ++ goTrimSpace (renderValue L kv.2)).data =
          kv.1.data ++ ([':', ' '] ++ (goTrimSpace (renderValue L kv.2)).data) := by
        show (kv.1.data ++ [':', ' ']) ++ (goTrimSpace (renderValue L kv.2)).data = _
        exact List.append_assoc kv.1.data [':', ' '] (goTrimSpace (renderValue L kv.2)).data
      show (':' : Char) ∈ (kv.1 ++ ": " ++ goTrimSpace (renderValue L kv.2)).data
      rw [hdata]
      exact List.mem_append.mpr (Or.inr (List.mem_append.mpr (Or.inl (by decide))))
    · rw [← hceq]; norm_num
    · rw [← hceq]; norm_num

/-- Chunk invariants for one decoded manifest document. -/
theorem parseDocument_chunk_inv {V : Type} {L : YamlLib V}
    {content sourceID : String} {docIndex : Nat} {docChunks : List EvidenceChunk}
    (h : KubernetesParser.parseDocument L content sourceID docIndex = .ok docChunks) :
    ∀ c ∈ docChunks, goTrimSpace c.Text ≠ "" ∧ 0 ≤ c.Confidence ∧ c.Confidence ≤ 1 := by
  unfold KubernetesParser.parseDocument at h
  cases hm : L.unmarshalManifest content with
  | error e => rw [hm] at h; cases h
  | ok manifest =>
    simp only [hm] at h
    injection h with h3
    intro c hc
    rw [← h3] at hc
    rcases List.mem_append.mp hc with hc | hc
    · cases hk : (manifest.kind != "") with
      | false => simp only [hk, if_neg] at hc; simp at hc
      | true =>
        simp only [hk, if_true] at hc
        rcases List.mem_cons.mp hc with hceq | hce
        · subst hceq
          refine ⟨?_, by norm_num, by norm_num⟩
          refine goTrimSpace_ne_of_mem (c := 'k') ?_ (by decide)
          show ('k' : Char) ∈ ("kind: " ++ manifest.kind ++ "\napiVersion: " ++ manifest.apiVersion).data
          show ('k' : Char) ∈ ((("kind: ".data ++ manifest.kind.data) ++ "\napiVersion: ".data) ++ manifest.apiVersion.data)
          refine List.mem_append.mpr (Or.inl ?_)
          refine List.mem_append.mpr (Or.inl ?_)
          exact List.mem_append.mpr (Or.inl (by decide))
        · cases hce
    · cases hsp : manifest.spec with
      | none => simp only [hsp] at hc; cases hc
      | some sp =>
        simp only [hsp] at hc
        unfold KubernetesParser.extractSpecChunks at hc
        obtain ⟨key, hkey, hkeq⟩ := List.mem_filterMap.mp hc
        cases hlk : sp.lookup key with
        | none => rw [hlk] at hkeq; cases hkeq
        | some val =>
          rw [hlk] at hkeq
          injection hkeq with hkeq
          subst hkeq
          refine ⟨?_, by norm_num, by norm_num⟩
          refine goTrimSpace_ne_of_mem (c := ':') ?_ (by decide)
          show (':' : Char) ∈ (key ++ ":\n" ++ goTrimSpace (renderValue L val)).data
          show (':' : Char) ∈ ((key.data ++ [':', '\n']) ++ (goTrimSpace (renderValue L val)).data)
          refine List.mem_append.mpr (Or.inl ?_)
          exact List.mem_append.mpr (Or.inr (by decide))

/-- Chunk invariants for the kubernetes parser. -/
theorem k8s_chunk_inv {V : Type} {L : YamlLib V} {src : EvidenceSource}
    {chunks : List EvidenceChunk}
    (h : KubernetesParser.Parse L src = .ok chunks) :
    ∀ c ∈ chunks, goTrimSpace c.Text ≠ "" ∧ 0 ≤ c.Confidence ∧ c.Confidence ≤ 1 := by
  have h2 : ((goSplit src.Content "\n---").enum.flatMap
      (fun idoc =>
        if goTrimSpace idoc.2 = "" then []
        else
          match KubernetesParser.parseDocument L (goTrimSpace idoc.2) src.ID idoc.1 with
          | .error _ => []
          | .ok docChunks => docChunks)) = chunks := by
    have hrfl : KubernetesParser.Parse L src = .ok ((goSplit src.Content "\n---").enum.flatMap
        (fun idoc =>
          if goTrimSpace idoc.2 = "" then []
          else
            match KubernetesParser.parseDocument L (goTrimSpace idoc.2) src.ID idoc.1 with
            | .error _ => []
            | .ok docChunks => docChunks)) := rfl
    rw [hrfl] at h
    injection h
  intro c hc
  rw [← h2] at hc
  obtain ⟨x, hx, hcx⟩ := List.mem_flatMap.mp hc
  by_cases ht : goTrimSpace x.2 = ""
  · rw [if_pos ht] at hcx; cases hcx
  · rw [if_neg ht] at hcx
    cases hpd : KubernetesParser.parseDocument L (goTrimSpace x.2) src.ID x.1 with
    | error e => rw [hpd] at hcx; cases hcx
    | ok docChunks =>
      rw [hpd] at hcx
      exact parseDocument_chunk_inv hpd c hcx

/-- C9: every chunk produced by the markdown, YAML or kubernetes parser
has non-empty trimmed text and a confidence in the unit interval, and
every candidate mapped from such chunks has a confidence in the unit
interval. -/
theorem C9_chunk_invariants {V : Type} (L : YamlLib V)
    (enum : List (String × V) → List (String × V)) (src : EvidenceSource)
    (chunks : List EvidenceChunk)
    (h : MarkdownParser.Parse src = .ok chunks ∨
         YAMLParser.Parse L enum src = .ok chunks ∨
         KubernetesParser.Parse L src = .ok chunks) :
    (∀ c ∈ chunks, goTrimSpace c.Text ≠ "" ∧ 0 ≤ c.Confidence ∧ c.Confidence ≤ 1) ∧
    (∀ cand ∈ SchemaMapper.Map chunks, 0 ≤ cand.Confidence ∧ cand.Confidence ≤ 1) := by
  have hchunks : ∀ c ∈ chunks, goTrimSpace c.Text ≠ "" ∧ 0 ≤ c.Confidence ∧ c.Confidence ≤ 1 := by
    rcases h with h | h | h
    · exact md_chunk_inv h
    · exact yaml_chunk_inv h
    · exact k8s_chunk_inv h
  exact ⟨hchunks, map_candidates_bounds chunks (fun c hc => (hchunks c hc).2)⟩

/-- C9 witness: the invariants instantiated on the markdown example's
three chunks. -/
theorem C9_witness :
    (∀ c ∈ [({ Text := "Content of section one.", SourceID := "test.md",
               SectionPath := "Section One", Confidence := 0.85 } : EvidenceChunk),
            { Text := "More content here.", SourceID := "test.md",
              SectionPath := "Subsection", Confidence := 0.85 },
            { Text := "Another section.", SourceID := "test.md",
              SectionPath := "Section Two", Confidence := 0.85 }],
      goTrimSpace c.Text ≠ "" ∧ 0 ≤ c.Confidence ∧ c.Confidence ≤ 1) ∧
    (∀ cand ∈ SchemaMapper.Map
        [{ Text := "Content of section one.", SourceID := "test.md",
           SectionPath := "Section One", Confidence := 0.85 },
         { Text := "More content here.", SourceID := "test.md",
           SectionPath := "Subsection", Confidence := 0.85 },
         { Text := "Another section.", SourceID := "test.md",
           SectionPath := "Section Two", Confidence := 0.85 }],
      0 ≤ cand.Confidence ∧ cand.Confidence ≤ 1) :=
  C9_chunk_invariants yamlPairLib id mdConcreteSrc _ (Or.inl rfl)

/-- The identity chunk emitted for a decoded manifest document with a
non-empty kind heads the document's chunk list. -/
theorem k8s_doc_chunk_head {V : Type} {L : YamlLib V} {m : KubeManifest V}
    {d : String} (s : String) (i : Nat)
    (hu : L.unmarshalManifest d = .ok m) (hkind : m.kind ≠ "") :
    ∃ rest, KubernetesParser.parseDocument L d s i =
      .ok ({ Text := "kind: " ++ m.kind ++ "\napiVersion: " ++ m.apiVersion,
             SourceID := s,
             SectionPath := (match m.metadata.lookup "name" with
               | some nm => m.kind ++ "/" ++ L.sprintf nm ++ " (doc " ++ toString i ++ ")"
               | none => m.kind ++ "/" ++ m.apiVersion) ++ " / identity",
             Confidence := 0.90 } :: rest) := by
  unfold KubernetesParser.parseDocument
  simp only [hu]
  have hb : (m.kind != "") = true := bne_iff_ne.mpr hkind
  rw [if_pos hb]
  exact ⟨_, rfl⟩

/-- A chunk of a successfully decoded document of the split is a chunk
of the whole kubernetes parse. -/
theorem k8s_parse_mem {V : Type} {L : YamlLib V} {src : EvidenceSource} {i : Nat} {d : String}
    {c : EvidenceChunk} {dc : List EvidenceChunk}
    (hd : (i, d) ∈ (goSplit src.Content "\n---").enum)
    (ht : goTrimSpace d ≠ "")
    (hpd : KubernetesParser.parseDocument L (goTrimSpace d) src.ID i = .ok dc)
    (hc : c ∈ dc) :
    ∀ chunks, KubernetesParser.Parse L src = .ok chunks → c ∈ chunks := by
  intro chunks h
  have hrfl : KubernetesParser.Parse L src = .ok ((goSplit src.Content "\n---").enum.flatMap
      (fun idoc =>
        if goTrimSpace idoc.2 = "" then []
        else
          match KubernetesParser.parseDocument L (goTrimSpace idoc.2) src.ID idoc.1 with
          | .error _ => []
          | .ok docChunks => docChunks)) := rfl
  rw [hrfl] at h
  injection h with h2
  rw [← h2]
  refine List.mem_flatMap.mpr ⟨(i, d), hd, ?_⟩
  show c ∈ (if goTrimSpace d = "" then []
    else
      match KubernetesParser.parseDocument L (goTrimSpace d) src.ID i with
      | .error _ => []
      | .ok docChunks => docChunks)
  rw [if_neg ht]
  simp only [hpd]
  exact hc

/-- C7: on the two-document fixture the kubernetes parser splits at the
document separator and parses each document independently: when both
documents decode, the returned chunks reference both `kind: Deployment`
and `kind: Service`; when the first document fails to decode, the parse
still succeeds with no error and the second document's chunks are still
returned. -/
theorem C7_multidoc_split :
    (∀ {V : Type} (L : YamlLib V) (m1 m2 : KubeManifest V),
      L.unmarshalManifest deployDocOne = .ok m1 → m1.kind = "Deployment" →
      L.unmarshalManifest svcDocTwo = .ok m2 → m2.kind = "Service" →
      ∃ chunks, KubernetesParser.Parse L multiSrc = .ok chunks ∧
        (∃ c ∈ chunks, goContains c.Text "kind: Deployment" = true) ∧
        (∃ c ∈ chunks, goContains c.Text "kind: Service" = true)) ∧
    (∀ {V : Type} (L : YamlLib V) (err : String) (m2 : KubeManifest V),
      L.unmarshalManifest deployDocOne = .error err →
      L.unmarshalManifest svcDocTwo = .ok m2 → m2.kind = "Service" →
      ∃ chunks, KubernetesParser.Parse L multiSrc = .ok chunks ∧
        ∃ c ∈ chunks, goContains c.Text "kind: Service" = true) := by
  have hd1 : ((0 : Nat), deployDocOne) ∈ (goSplit multiSrc.Content "\n---").enum := by
    rw [show goSplit multiSrc.Content "\n---" = [deployDocOne, "\n" ++ svcDocTwo] from rfl]
    decide
  have hd2 : ((1 : Nat), "\n" ++ svcDocTwo) ∈ (goSplit multiSrc.Content "\n---").enum := by
    rw [show goSplit multiSrc.Content "\n---" = [deployDocOne, "\n" ++ svcDocTwo] from rfl]
    decide
  have ht1 : goTrimSpace deployDocOne ≠ "" := by decide
  have ht2 : goTrimSpace ("\n" ++ svcDocTwo) ≠ "" := by decide
  have htr2 : goTrimSpace ("\n" ++ svcDocTwo) = svcDocTwo := rfl
  constructor
  · intro V L m1 m2 hu1 hk1 hu2 hk2
    obtain ⟨rest1, hpd1⟩ := k8s_doc_chunk_head multiSrc.ID 0 hu1
      (by rw [hk1]; decide)
    obtain ⟨rest2, hpd2⟩ := k8s_doc_chunk_head multiSrc.ID 1 hu2
      (by rw [hk2]; decide)
    have hcont1 : goContains ("kind: " ++ m1.kind ++ "\napiVersion: " ++ m1.apiVersion)
        "kind: Deployment" = true := by
      rw [hk1]
      rw [show ("kind: " ++ "Deployment" ++ "\napiVersion: " : String) =
        "kind: Deployment" ++ "\napiVersion: " from rfl]
      rw [String.append_assoc]
      exact goContains_append_left _ _
    have hcont2 : goContains ("kind: " ++ m2.kind ++ "\napiVersion: " ++ m2.apiVersion)
        "kind: Service" = true := by
      rw [hk2]
      rw [show ("kind: " ++ "Service" ++ "\napiVersion: " : String) =
        "kind: Service" ++ "\napiVersion: " from rfl]
      rw [String.append_assoc]
      exact goContains_append_left _ _
    have hm1 := k8s_parse_mem hd1 ht1 hpd1 (List.mem_cons_self _ _)
    have hm2 := k8s_parse_mem hd2 ht2 (htr2 ▸ hpd2) (List.mem_cons_self _ _)
    exact ⟨_, rfl, ⟨_, hm1 _ rfl, hcont1⟩, ⟨_, hm2 _ rfl, hcont2⟩⟩
  · intro V L err m2 hu1 hu2 hk2
    obtain ⟨rest2, hpd2⟩ := k8s_doc_chunk_head multiSrc.ID 1 hu2
      (by rw [hk2]; decide)
    have hcont2 : goContains ("kind: " ++ m2.kind ++ "\napiVersion: " ++ m2.apiVersion)
        "kind: Service" = true := by
      rw [hk2]
      rw [show ("kind: " ++ "Service" ++ "\napiVersion: " : String) =
        "kind: Service" ++ "\napiVersion: " from rfl]
      rw [String.append_assoc]
      exact goContains_append_left _ _
    have hm2 := k8s_parse_mem hd2 ht2 (htr2 ▸ hpd2) (List.mem_cons_self _ _)
    exact ⟨_, rfl, ⟨_, hm2 _ rfl, hcont2⟩⟩

/-- C7 witness: both conjuncts instantiated with concrete library
models, one decoding both fixture documents and one failing on the
first. -/
theorem C7_witness :
    (∃ chunks, KubernetesParser.Parse k8sModelLib multiSrc = .ok chunks ∧
      (∃ c ∈ chunks, goContains c.Text "kind: Deployment" = true) ∧
      (∃ c ∈ chunks, goContains c.Text "kind: Service" = true)) ∧
    (∃ chunks, KubernetesParser.Parse k8sFailLib multiSrc = .ok chunks ∧
      ∃ c ∈ chunks, goContains c.Text "kind: Service" = true) :=
  ⟨C7_multidoc_split.1 k8sModelLib _ _ rfl rfl rfl rfl,
   C7_multidoc_split.2 k8sFailLib "model: decode failure" _ rfl rfl rfl⟩

/-- C1 counterexample: on a two-key YAML document, two pipeline runs
whose map iterations enumerate the decoded entries in different orders
(both permutations of the entries, as Go map iteration guarantees)
return different candidate sequences, so byte-identical output is not
guaranteed across invocations. -/
theorem C1_counterexample :
    (Pipeline.RunWithMeta [yamlParser yamlPairLib id] yamlPairSrc).toOption.map
        RunResult.Candidates ≠
      (Pipeline.RunWithMeta [yamlParser yamlPairLib List.reverse] yamlPairSrc).toOption.map
        RunResult.Candidates ∧
    (List.reverse [("title", "a"), ("version", "b")]).Perm [("title", "a"), ("version", "b")] := by
  constructor
  · decide
  · decide

/-- C1 (amended): the pipeline over the modelled parsers is a pure
function of the source and the map-iteration order; two invocations
whose iteration orders are permutations of the decoded entries either
fail with the same error or succeed with the same parser name, the same
chunk count, and candidate lists equal up to order, and they are
byte-identical whenever the iteration orders agree. -/
theorem C1_deterministic_up_to_map_order {V : Type} (L : YamlLib V)
    (e1 e2 : List (String × V) → List (String × V))
    (h1 : ∀ l, (e1 l).Perm l) (h2 : ∀ l, (e2 l).Perm l) (src : EvidenceSource) :
    (∃ r1 r2,
      Pipeline.RunWithMeta [kubernetesParser L, markdownParser, yamlParser L e1] src = .ok r1 ∧
      Pipeline.RunWithMeta [kubernetesParser L, markdownParser, yamlParser L e2] src = .ok r2 ∧
      r1.EquivUpToOrder r2) ∨
    (∃ e,
      Pipeline.RunWithMeta [kubernetesParser L, markdownParser, yamlParser L e1] src = .error e ∧
      Pipeline.RunWithMeta [kubernetesParser L, markdownParser, yamlParser L e2] src = .error e) := by
  by_cases hk : (kubernetesParser L).canHandle src = true
  · have hs1 : Pipeline.selectParser [kubernetesParser L, markdownParser, yamlParser L e1] src =
        .ok (kubernetesParser L) := by
      unfold Pipeline.selectParser
      rw [List.find?_cons_of_pos (p := fun q : EvidenceParser => q.canHandle src) _ hk]
    have hs2 : Pipeline.selectParser [kubernetesParser L, markdownParser, yamlParser L e2] src =
        .ok (kubernetesParser L) := by
      unfold Pipeline.selectParser
      rw [List.find?_cons_of_pos (p := fun q : EvidenceParser => q.canHandle src) _ hk]
    have hr1 : Pipeline.RunWithMeta [kubernetesParser L, markdownParser, yamlParser L e1] src =
        Pipeline.runSelected (kubernetesParser L) src := by
      unfold Pipeline.RunWithMeta; rw [hs1]
    have hr2 : Pipeline.RunWithMeta [kubernetesParser L, markdownParser, yamlParser L e2] src =
        Pipeline.runSelected (kubernetesParser L) src := by
      unfold Pipeline.RunWithMeta; rw [hs2]
    cases hres : Pipeline.runSelected (kubernetesParser L) src with
    | ok r => exact Or.inl ⟨r, r, hr1.trans hres, hr2.trans hres, List.Perm.refl _, rfl, rfl⟩
    | error e => exact Or.inr ⟨e, hr1.trans hres, hr2.trans hres⟩
  · have hkf : (kubernetesParser L).canHandle src = false := by
      simp only [Bool.not_eq_true] at hk; exact hk
    by_cases hm : markdownParser.canHandle src = true
    · have hs1 : Pipeline.selectParser [kubernetesParser L, markdownParser, yamlParser L e1] src =
          .ok markdownParser := by
        unfold Pipeline.selectParser
        rw [List.find?_cons_of_neg (p := fun q : EvidenceParser => q.canHandle src) _ (by simp [hkf]),
          List.find?_cons_of_pos (p := fun q : EvidenceParser => q.canHandle src) _ hm]
      have hs2 : Pipeline.selectParser [kubernetesParser L, markdownParser, yamlParser L e2] src =
          .ok markdownParser := by
        unfold Pipeline.selectParser
        rw [List.find?_cons_of_neg (p := fun q : EvidenceParser => q.canHandle src) _ (by simp [hkf]),
          List.find?_cons_of_pos (p := fun q : EvidenceParser => q.canHandle src) _ hm]
      have hr1 : Pipeline.RunWithMeta [kubernetesParser L, markdownParser, yamlParser L e1] src =
          Pipeline.runSelected markdownParser src := by
        unfold Pipeline.RunWithMeta; rw [hs1]
      have hr2 : Pipeline.RunWithMeta [kubernetesParser L, markdownParser, yamlParser L e2] src =
          Pipeline.runSelected markdownParser src := by
        unfold Pipeline.RunWithMeta; rw [hs2]
      cases hres : Pipeline.runSelected markdownParser src with
      | ok r => exact Or.inl ⟨r, r, hr1.trans hres, hr2.trans hres, List.Perm.refl _, rfl, rfl⟩
      | error e => exact Or.inr ⟨e, hr1.trans hres, hr2.trans hres⟩
    · have hmf : markdownParser.canHandle src = false := by
        simp only [Bool.not_eq_true] at hm; exact hm
      by_cases hy : YAMLParser.CanHandle src = true
      · have hs1 : Pipeline.selectParser [kubernetesParser L, markdownParser, yamlParser L e1] src =
            .ok (yamlParser L e1) := by
          unfold Pipeline.selectParser
          rw [List.find?_cons_of_neg (p := fun q : EvidenceParser => q.canHandle src) _ (by simp [hkf]),
            List.find?_cons_of_neg (p := fun q : EvidenceParser => q.canHandle src) _ (by simp [hmf]),
            List.find?_cons_of_pos (p := fun q : EvidenceParser => q.canHandle src) _ hy]
        have hs2 : Pipeline.selectParser [kubernetesParser L, markdownParser, yamlParser L e2] src =
            .ok (yamlParser L e2) := by
          unfold Pipeline.selectParser
          rw [List.find?_cons_of_neg (p := fun q : EvidenceParser => q.canHandle src) _ (by simp [hkf]),
            List.find?_cons_of_neg (p := fun q : EvidenceParser => q.canHandle src) _ (by simp [hmf]),
            List.find?_cons_of_pos (p := fun q : EvidenceParser => q.canHandle src) _ hy]
        have hr1 : Pipeline.RunWithMeta [kubernetesParser L, markdownParser, yamlParser L e1] src =
            Pipeline.runSelected (yamlParser L e1) src := by
          unfold Pipeline.RunWithMeta; rw [hs1]
        have hr2 : Pipeline.RunWithMeta [kubernetesParser L, markdownParser, yamlParser L e2] src =
            Pipeline.runSelected (yamlParser L e2) src := by
          unfold Pipeline.RunWithMeta; rw [hs2]
        cases hum : L.unmarshalMap src.Content with
        | error er =>
          refine Or.inr ⟨.parserFailed "yaml" ("failed to unmarshal YAML/JSON: " ++ er), ?_, ?_⟩
          · rw [hr1]
            have hp : (yamlParser L e1).parse src =
                .error ("failed to unmarshal YAML/JSON: " ++ er) := by
              show YAMLParser.Parse L e1 src = _
              unfold YAMLParser.Parse
              rw [hum]
            unfold Pipeline.runSelected
            rw [hp]
            rfl
          · rw [hr2]
            have hp : (yamlParser L e2).parse src =
                .error ("failed to unmarshal YAML/JSON: " ++ er) := by
              show YAMLParser.Parse L e2 src = _
              unfold YAMLParser.Parse
              rw [hum]
            unfold Pipeline.runSelected
            rw [hp]
            rfl
        | ok doc =>
          have hperm : (e1 doc).Perm (e2 doc) := (h1 doc).trans (h2 doc).symm
          have hp1 : (yamlParser L e1).parse src = .ok ((e1 doc).map (fun kv =>
              ({ Text := kv.1 ++ ": " ++ goTrimSpace (renderValue L kv.2),
                 SourceID := src.ID, SectionPath := kv.1,
                 Confidence := 0.80 } : EvidenceChunk))) := by
            show YAMLParser.Parse L e1 src = _
            unfold YAMLParser.Parse
            rw [hum]
          have hp2 : (yamlParser L e2).parse src = .ok ((e2 doc).map (fun kv =>
              ({ Text := kv.1 ++ ": " ++ goTrimSpace (renderValue L kv.2),
                 SourceID := src.ID, SectionPath := kv.1,
                 Confidence := 0.80 } : EvidenceChunk))) := by
            show YAMLParser.Parse L e2 src = _
            unfold YAMLParser.Parse
            rw [hum]
          have hchunksPerm := hperm.map (fun kv =>
              ({ Text := kv.1 ++ ": " ++ goTrimSpace (renderValue L kv.2),
                 SourceID := src.ID, SectionPath := kv.1,
                 Confidence := 0.80 } : EvidenceChunk))
          have hrr1 : Pipeline.RunWithMeta [kubernetesParser L, markdownParser, yamlParser L e1] src =
              .ok { Candidates := SchemaMapper.Map ((e1 doc).map (fun kv =>
                      ({ Text := kv.1 ++ ": " ++ goTrimSpace (renderValue L kv.2),
                         SourceID := src.ID, SectionPath := kv.1,
                         Confidence := 0.80 } : EvidenceChunk))),
                    ParserUsed := "yaml",
                    ChunkCount := ((e1 doc).map (fun kv =>
                      ({ Text := kv.1 ++ ": " ++ goTrimSpace (renderValue L kv.2),
                         SourceID := src.ID, SectionPath := kv.1,
                         Confidence := 0.80 } : EvidenceChunk))).length } := by
            rw [hr1]
            unfold Pipeline.runSelected
            rw [hp1]
            rfl
          have hrr2 : Pipeline.RunWithMeta [kubernetesParser L, markdownParser, yamlParser L e2] src =
              .ok { Candidates := SchemaMapper.Map ((e2 doc).map (fun kv =>
                      ({ Text := kv.1 ++ ": " ++ goTrimSpace (renderValue L kv.2),
                         SourceID := src.ID, SectionPath := kv.1,
                         Confidence := 0.80 } : EvidenceChunk))),
                    ParserUsed := "yaml",
                    ChunkCount := ((e2 doc).map (fun kv =>
                      ({ Text := kv.1 ++ ": " ++ goTrimSpace (renderValue L kv.2),
                         SourceID := src.ID, SectionPath := kv.1,
                         Confidence := 0.80 } : EvidenceChunk))).length } := by
            rw [hr2]
            unfold Pipeline.runSelected
            rw [hp2]
            rfl
          exact Or.inl ⟨_, _, hrr1, hrr2,
            hchunksPerm.filterMap SchemaMapper.mapChunk, rfl, hchunksPerm.length_eq⟩
      · have hyf : YAMLParser.CanHandle src = false := by
          simp only [Bool.not_eq_true] at hy; exact hy
        have hs1 : Pipeline.selectParser [kubernetesParser L, markdownParser, yamlParser L e1] src =
            .error (.unsupportedFormat src.ID src.Format) := by
          unfold Pipeline.selectParser
          rw [List.find?_cons_of_neg (p := fun q : EvidenceParser => q.canHandle src) _ (by simp [hkf]),
            List.find?_cons_of_neg (p := fun q : EvidenceParser => q.canHandle src) _ (by simp [hmf]),
            List.find?_cons_of_neg (p := fun q : EvidenceParser => q.canHandle src) _ (by simp [yamlParser, hyf])]
          rfl
        have hs2 : Pipeline.selectParser [kubernetesParser L, markdownParser, yamlParser L e2] src =
            .error (.unsupportedFormat src.ID src.Format) := by
          unfold Pipeline.selectParser
          rw [List.find?_cons_of_neg (p := fun q : EvidenceParser => q.canHandle src) _ (by simp [hkf]),
            List.find?_cons_of_neg (p := fun q : EvidenceParser => q.canHandle src) _ (by simp [hmf]),
            List.find?_cons_of_neg (p := fun q : EvidenceParser => q.canHandle src) _ (by simp [yamlParser, hyf])]
          rfl
        refine Or.inr ⟨.unsupportedFormat src.ID src.Format, ?_, ?_⟩
        · unfold Pipeline.RunWithMeta
          rw [hs1]
        · unfold Pipeline.RunWithMeta
          rw [hs2]

/-- C1 witness: the amended theorem instantiated at the concrete two-key
fixture with the identity enumeration on both runs. -/
theorem C1_witness :
    (∃ r1 r2,
      Pipeline.RunWithMeta [kubernetesParser yamlPairLib, markdownParser,
        yamlParser yamlPairLib id] yamlPairSrc = .ok r1 ∧
      Pipeline.RunWithMeta [kubernetesParser yamlPairLib, markdownParser,
        yamlParser yamlPairLib id] yamlPairSrc = .ok r2 ∧
      r1.EquivUpToOrder r2) ∨
    (∃ e,
      Pipeline.RunWithMeta [kubernetesParser yamlPairLib, markdownParser,
        yamlParser yamlPairLib id] yamlPairSrc = .error e ∧
      Pipeline.RunWithMeta [kubernetesParser yamlPairLib, markdownParser,
        yamlParser yamlPairLib id] yamlPairSrc = .error e) :=
  C1_deterministic_up_to_map_order yamlPairLib id id
    (fun l => List.Perm.refl l) (fun l => List.Perm.refl l) yamlPairSrc
